import Mathlib

/-!
Shallow embedding of the timer registry of the kitchen-assistant repository
(src/backend/tools/timer.js) together with the start-timer request handler
(timer controller in src/backend/controllers, routed by src/unnamed/part_000).

Modelling conventions:
- The closure state of createTimerManager (counter, timers object, the set of
  interval handles scheduled by setInterval, the Redis key space, the events
  emitted through io, and whether the Redis connection is open) is a record
  RegState.
- JS objects keyed by timer id are association lists with unique keys; a
  property write is setKey, property deletion is eraseKey.
- setInterval returns a fresh handle (nextHandle); clearInterval removes the
  handle from the scheduled list.  A tick callback can fire only while its
  handle is scheduled.
- Timer durations are rationals: the HTTP layer admits every finite positive
  JS number, and the countdown subtracts 1 per tick.
- Every Redis call is best effort: the ok flag of an operation tells whether
  the store call took effect (true) or was dropped because Redis is absent,
  unreachable or errored (false).  Store failures are swallowed by the code
  (fire-and-forget set, del(...).catch, try/catch), so a failed call leaves
  the store unchanged and the operation continues.
-/

namespace KitchenTimer

/-- Events emitted through the socket (io.emit in timer.js):
timer:started, timer:update, timer:done, timer:stopped. -/
inductive Event where
  | started (id : Nat) (secondsLeft : Rat)
  | update (id : Nat) (secondsLeft : Rat)
  | done (id : Nat)
  | stopped (id : Nat)
deriving DecidableEq

/-- The timer id carried by an event. -/
def Event.timerId : Event → Nat
  | .started id _ => id
  | .update id _ => id
  | .done id => id
  | .stopped id => id

/-- One in-memory timer record: { secondsLeft, intervalId } in timer.js. -/
structure TimerRec where
  secondsLeft : Rat
  intervalId : Nat
deriving DecidableEq

/-- Lookup in an association list keyed by Nat (JS property read timers[id]). -/
def lookupKey {α : Type} (k : Nat) : List (Nat × α) → Option α
  | [] => none
  | (k1, v) :: rest => if k1 = k then some v else lookupKey k rest

/-- Delete every entry with the given key (JS delete timers[id]). -/
def eraseKey {α : Type} (k : Nat) (l : List (Nat × α)) : List (Nat × α) :=
  l.filter (fun p => p.1 != k)

/-- Property write timers[id] = v: replace any old entry under the key. -/
def setKey {α : Type} (k : Nat) (v : α) (l : List (Nat × α)) : List (Nat × α) :=
  eraseKey k l ++ [(k, v)]

/-- clearInterval h: the handle is no longer scheduled. -/
def removeHandle (h : Nat) (l : List Nat) : List Nat :=
  l.filter (fun x => x != h)

/-- The whole mutable state of createTimerManager plus its observable
environment (Redis keys, emitted events, connection status). -/
structure RegState where
  counter : Nat
  timers : List (Nat × TimerRec)
  nextHandle : Nat
  scheduled : List Nat
  store : List (Nat × Rat)
  events : List Event
  connOpen : Bool
deriving DecidableEq

/-- State at process start: counter = 0, empty timers object, nothing
scheduled, no events emitted yet. -/
def initState : RegState :=
  { counter := 0, timers := [], nextHandle := 0, scheduled := [],
    store := [], events := [], connOpen := true }

/-- persistTimerToRedis: looks up timers[id]; if present, writes
{ id, secondsLeft } under the key timer:id.  Fire and forget: with ok = false
(no Redis / failed write) the store is unchanged and nothing else happens. -/
def persistTimerToRedis (ok : Bool) (id : Nat) (s : RegState) : RegState :=
  match lookupKey id s.timers with
  | none => s
  | some t => if ok then { s with store := setKey id t.secondsLeft s.store } else s

/-- removeTimerFromRedis: del timer:id with a .catch that only logs. -/
def removeTimerFromRedis (ok : Bool) (id : Nat) (s : RegState) : RegState :=
  if ok then { s with store := eraseKey id s.store } else s

/-- startLocalTimer(id, secondsLeft): if a timer object already sits under the
id, clearInterval its handle; create the record, schedule a fresh interval
handle, store the record under the id, emit timer:started and persist. -/
def startLocalTimer (ok : Bool) (id : Nat) (n : Rat) (s : RegState) : RegState :=
  let s0 := match lookupKey id s.timers with
            | some t => { s with scheduled := removeHandle t.intervalId s.scheduled }
            | none => s
  let h := s0.nextHandle
  let s1 := { s0 with
                timers := setKey id { secondsLeft := n, intervalId := h } s0.timers
                nextHandle := h + 1
                scheduled := s0.scheduled ++ [h]
                events := s0.events ++ [Event.started id n] }
  persistTimerToRedis ok id s1

/-- startTimer(seconds): id = ++counter, then startLocalTimer(id, seconds);
returns the new state together with the returned id. -/
def startTimer (ok : Bool) (seconds : Rat) (s : RegState) : RegState × Nat :=
  let id := s.counter + 1
  (startLocalTimer ok id seconds { s with counter := id }, id)

/-- stopTimer(id): silently returns when timers[id] is absent; otherwise
clearInterval, delete timers[id], delete the Redis key, emit timer:stopped. -/
def stopTimer (ok : Bool) (id : Nat) (s : RegState) : RegState :=
  match lookupKey id s.timers with
  | none => s
  | some t =>
    let s1 := { s with
                  scheduled := removeHandle t.intervalId s.scheduled
                  timers := eraseKey id s.timers }
    let s2 := removeTimerFromRedis ok id s1
    { s2 with events := s2.events ++ [Event.stopped id] }

/-- One firing of the setInterval callback installed for the timer under the
id.  The callback can fire only while its handle is scheduled.  It decrements
secondsLeft, emits timer:update with the new value, persists, and when the new
value is at most 0 it clears its own interval, emits timer:done, deletes
timers[id] and deletes the Redis key. -/
def tick (ok : Bool) (id : Nat) (s : RegState) : RegState :=
  match lookupKey id s.timers with
  | none => s
  | some t =>
    if t.intervalId ∈ s.scheduled then
      let v := t.secondsLeft - 1
      let s1 := { s with
                    timers := setKey id { secondsLeft := v, intervalId := t.intervalId } s.timers
                    events := s.events ++ [Event.update id v] }
      let s2 := persistTimerToRedis ok id s1
      if v ≤ 0 then
        let s3 := { s2 with
                      scheduled := removeHandle t.intervalId s2.scheduled
                      events := s2.events ++ [Event.done id]
                      timers := eraseKey id s2.timers }
        removeTimerFromRedis ok id s3
      else s2
    else s

/-- listTimers(): Object.entries(timers).map(([id, t]) => ({ id, secondsLeft })). -/
def listTimers (s : RegState) : List (Nat × Rat) :=
  s.timers.map (fun p => (p.1, p.2.secondsLeft))

/-- shutdown(): clearInterval every live timer handle and quit the Redis
client (errors logged).  The timers object, the counter, the emitted events
and every persisted Redis record are untouched. -/
def shutdown (s : RegState) : RegState :=
  { s with scheduled := [], connOpen := false }

/-- restoreFromRedis, with the stored records already read and JSON-parsed:
for each record whose id is truthy and whose secondsLeft is positive,
startLocalTimer(id, secondsLeft).  The counter is not touched. -/
def restoreFromRedis (ok : Bool) (records : List (Nat × Rat)) (s : RegState) : RegState :=
  records.foldl
    (fun acc r => if r.1 ≠ 0 ∧ 0 < r.2 then startLocalTimer ok r.1 r.2 acc else acc) s

/-- Interleavable operations once the manager is running: an HTTP start, an
HTTP stop, and the firing of one timer interval callback.  Each carries the
best-effort outcome of the Redis calls it makes. -/
inductive Op where
  | start (ok : Bool) (seconds : Rat)
  | stop (ok : Bool) (id : Nat)
  | tick (ok : Bool) (id : Nat)

/-- Apply one operation. -/
def applyOp (s : RegState) : Op → RegState
  | .start ok n => (startTimer ok n s).1
  | .stop ok id => stopTimer ok id s
  | .tick ok id => tick ok id s

/-- Run a sequence of operations. -/
def run (s : RegState) (ops : List Op) : RegState :=
  ops.foldl applyOp s

/-- The keys of an association list. -/
def keysOf {α : Type} (l : List (Nat × α)) : List Nat :=
  l.map Prod.fst

/-- A JS value arriving as req.body.seconds in the start-timer handler. -/
inductive JSValue where
  | nan
  | posInf
  | negInf
  | num (q : Rat)
  | nonNumber

/-- The values on which Number.isFinite(v) && v > 0 holds. -/
def isFinitePositive : JSValue → Prop
  | .num q => 0 < q
  | _ => False

/-- The startTimer request handler of the timer controller: rejects with a
400 validation error (modelled as none, registry untouched) unless seconds is
a finite positive number; otherwise calls timerManager.startTimer and answers
{ id, seconds }. -/
def startTimerHandler (ok : Bool) (v : JSValue) (s : RegState) :
    Option (Nat × Rat) × RegState :=
  match v with
  | .num q =>
      if q ≤ 0 then (none, s)
      else
        let r := startTimer ok q s
        (some (r.2, q), r.1)
  | _ => (none, s)

/-! Association list lemmas. -/

theorem lookupKey_cons {α : Type} (k : Nat) (p : Nat × α) (rest : List (Nat × α)) :
    lookupKey k (p :: rest) = if p.1 = k then some p.2 else lookupKey k rest := by
  cases p
  rfl

theorem eraseKey_cons {α : Type} (k : Nat) (p : Nat × α) (rest : List (Nat × α)) :
    eraseKey k (p :: rest) = if p.1 = k then eraseKey k rest else p :: eraseKey k rest := by
  by_cases h : p.1 = k <;> simp [eraseKey, List.filter_cons, h]

theorem lookupKey_eraseKey_self {α : Type} (k : Nat) (l : List (Nat × α)) :
    lookupKey k (eraseKey k l) = none := by
  induction l with
  | nil => rfl
  | cons p rest ih =>
    by_cases h : p.1 = k <;> simp [eraseKey_cons, lookupKey_cons, h, ih]

theorem lookupKey_eraseKey_ne {α : Type} {k k1 : Nat} (h : k1 ≠ k) (l : List (Nat × α)) :
    lookupKey k1 (eraseKey k l) = lookupKey k1 l := by
  induction l with
  | nil => rfl
  | cons p rest ih =>
    by_cases hp : p.1 = k
    · have hp1 : p.1 ≠ k1 := fun hc => h (by rw [← hc, hp])
      have h2 : ¬ (k = k1) := fun hh => h hh.symm
      simp [eraseKey_cons, lookupKey_cons, hp, hp1, h2, ih]
    · simp [eraseKey_cons, lookupKey_cons, hp, ih]

theorem lookupKey_append {α : Type} (k : Nat) (l1 l2 : List (Nat × α)) :
    lookupKey k (l1 ++ l2) =
      match lookupKey k l1 with
      | some v => some v
      | none => lookupKey k l2 := by
  induction l1 with
  | nil => simp [lookupKey]
  | cons p rest ih =>
    by_cases hp : p.1 = k
    · simp [lookupKey_cons, hp]
    · simpa [lookupKey_cons, hp] using ih

theorem lookupKey_setKey_self {α : Type} (k : Nat) (v : α) (l : List (Nat × α)) :
    lookupKey k (setKey k v l) = some v := by
  simp [setKey, lookupKey_append, lookupKey_eraseKey_self, lookupKey]

theorem lookupKey_setKey_ne {α : Type} {k k1 : Nat} (h : k1 ≠ k) (v : α) (l : List (Nat × α)) :
    lookupKey k1 (setKey k v l) = lookupKey k1 l := by
  have h1 : ¬ (k = k1) := fun hh => h hh.symm
  rw [setKey, lookupKey_append, lookupKey_eraseKey_ne h]
  cases hl : lookupKey k1 l <;> simp [lookupKey_cons, h1, lookupKey]

theorem mem_of_lookupKey_eq_some {α : Type} {k : Nat} {v : α} {l : List (Nat × α)}
    (h : lookupKey k l = some v) : (k, v) ∈ l := by
  induction l with
  | nil => simp [lookupKey] at h
  | cons p rest ih =>
    rw [lookupKey_cons] at h
    by_cases hp : p.1 = k
    · simp [hp] at h
      have : p = (k, v) := by
        cases p
        simp at hp h
        simp [hp, h]
      simp [this]
    · simp [hp] at h
      exact List.mem_cons_of_mem _ (ih h)

theorem lookupKey_eq_none_of_not_mem {α : Type} {k : Nat} {l : List (Nat × α)}
    (h : k ∉ keysOf l) : lookupKey k l = none := by
  induction l with
  | nil => rfl
  | cons p rest ih =>
    simp [keysOf] at h
    have h1 : p.1 ≠ k := fun hc => h.1 hc.symm
    simp [lookupKey_cons, h1, ih (by simp [keysOf]; exact h.2)]

theorem mem_eraseKey {α : Type} {p : Nat × α} {k : Nat} {l : List (Nat × α)} :
    p ∈ eraseKey k l ↔ p ∈ l ∧ p.1 ≠ k := by
  simp [eraseKey, List.mem_filter]

theorem mem_setKey {α : Type} {p : Nat × α} {k : Nat} {v : α} {l : List (Nat × α)} :
    p ∈ setKey k v l ↔ (p ∈ l ∧ p.1 ≠ k) ∨ p = (k, v) := by
  simp [setKey, mem_eraseKey]

theorem eraseKey_setKey_self {α : Type} (k : Nat) (v : α) (l : List (Nat × α)) :
    eraseKey k (setKey k v l) = eraseKey k l := by
  have : eraseKey k (eraseKey k l) = eraseKey k l := by
    induction l with
    | nil => rfl
    | cons p rest ih =>
      by_cases h : p.1 = k <;> simp [eraseKey_cons, h, ih]
  simp only [setKey, eraseKey, List.filter_append] at this ⊢
  simp [List.filter_cons, this]

theorem mem_removeHandle {x h : Nat} {l : List Nat} :
    x ∈ removeHandle h l ↔ x ∈ l ∧ x ≠ h := by
  simp [removeHandle, List.mem_filter]

theorem keysOf_eraseKey {α : Type} (k : Nat) (l : List (Nat × α)) :
    keysOf (eraseKey k l) = (keysOf l).filter (fun x => x != k) := by
  induction l with
  | nil => rfl
  | cons p rest ih =>
    by_cases hp : p.1 = k <;> simp [eraseKey_cons, keysOf, hp, List.filter_cons, ih] <;>
      simpa [keysOf] using ih

theorem keysOf_nodup_setKey {α : Type} {l : List (Nat × α)} (k : Nat) (v : α)
    (h : (keysOf l).Nodup) : (keysOf (setKey k v l)).Nodup := by
  have herased : (keysOf (eraseKey k l)).Nodup := by
    rw [keysOf_eraseKey]
    exact h.filter _
  have hk : k ∉ keysOf (eraseKey k l) := by
    rw [keysOf_eraseKey]
    intro hc
    simp [List.mem_filter] at hc
  have : keysOf (setKey k v l) = keysOf (eraseKey k l) ++ [k] := by
    simp [setKey, keysOf]
  rw [this, List.nodup_append]
  refine ⟨herased, List.nodup_singleton k, ?_⟩
  intro x hx hxk
  simp at hxk
  subst hxk
  exact hk hx

/-! Characterizations of the registry operations as explicit record updates. -/

theorem startLocalTimer_eq (ok : Bool) (id : Nat) (n : Rat) (s : RegState) :
    startLocalTimer ok id n s =
      { counter := s.counter
        timers := setKey id { secondsLeft := n, intervalId := s.nextHandle } s.timers
        nextHandle := s.nextHandle + 1
        scheduled := (match lookupKey id s.timers with
                      | some t => removeHandle t.intervalId s.scheduled
                      | none => s.scheduled) ++ [s.nextHandle]
        store := if ok then setKey id n s.store else s.store
        events := s.events ++ [Event.started id n]
        connOpen := s.connOpen } := by
  cases h : lookupKey id s.timers <;> cases ok <;>
    simp [startLocalTimer, persistTimerToRedis, h, lookupKey_setKey_self]

theorem tick_not_live (ok : Bool) (id : Nat) (s : RegState)
    (h : lookupKey id s.timers = none) : tick ok id s = s := by
  simp [tick, h]

theorem tick_not_scheduled (ok : Bool) (id : Nat) (s : RegState) (t : TimerRec)
    (h : lookupKey id s.timers = some t) (hs : t.intervalId ∉ s.scheduled) :
    tick ok id s = s := by
  simp [tick, h, hs]

theorem tick_live_run (ok : Bool) (id : Nat) (s : RegState) (t : TimerRec)
    (h : lookupKey id s.timers = some t) (hs : t.intervalId ∈ s.scheduled)
    (hv : ¬ t.secondsLeft - 1 ≤ 0) :
    tick ok id s =
      { s with
          timers := setKey id { secondsLeft := t.secondsLeft - 1,
                                intervalId := t.intervalId } s.timers
          events := s.events ++ [Event.update id (t.secondsLeft - 1)]
          store := if ok then setKey id (t.secondsLeft - 1) s.store else s.store } := by
  cases ok <;>
    simp [tick, persistTimerToRedis, h, hs, hv, lookupKey_setKey_self]

theorem tick_live_done (ok : Bool) (id : Nat) (s : RegState) (t : TimerRec)
    (h : lookupKey id s.timers = some t) (hs : t.intervalId ∈ s.scheduled)
    (hv : t.secondsLeft - 1 ≤ 0) :
    tick ok id s =
      { counter := s.counter
        timers := eraseKey id s.timers
        nextHandle := s.nextHandle
        scheduled := removeHandle t.intervalId s.scheduled
        store := if ok then eraseKey id s.store else s.store
        events := s.events ++ [Event.update id (t.secondsLeft - 1), Event.done id]
        connOpen := s.connOpen } := by
  cases ok <;>
    simp [tick, persistTimerToRedis, removeTimerFromRedis, h, hs, hv,
      lookupKey_setKey_self, eraseKey_setKey_self]

theorem stopTimer_not_live (ok : Bool) (id : Nat) (s : RegState)
    (h : lookupKey id s.timers = none) : stopTimer ok id s = s := by
  simp [stopTimer, h]

theorem stopTimer_live (ok : Bool) (id : Nat) (s : RegState) (t : TimerRec)
    (h : lookupKey id s.timers = some t) :
    stopTimer ok id s =
      { s with
          scheduled := removeHandle t.intervalId s.scheduled
          timers := eraseKey id s.timers
          store := if ok then eraseKey id s.store else s.store
          events := s.events ++ [Event.stopped id] } := by
  cases ok <;> simp [stopTimer, removeTimerFromRedis, h]

theorem startTimer_eq (ok : Bool) (n : Rat) (s : RegState) :
    startTimer ok n s =
      (startLocalTimer ok (s.counter + 1) n { s with counter := s.counter + 1 },
       s.counter + 1) := rfl

/-! More association list facts. -/

theorem lookupKey_isSome_of_mem_keys {α : Type} {k : Nat} {l : List (Nat × α)}
    (h : k ∈ keysOf l) : (lookupKey k l).isSome := by
  induction l with
  | nil => simp [keysOf] at h
  | cons p rest ih =>
    rw [lookupKey_cons]
    by_cases hp : p.1 = k
    · simp [hp]
    · simp [keysOf] at h
      rcases h with h | h
      · exact absurd h.symm hp
      · simp [hp]
        exact ih (by simp [keysOf, h])

theorem not_mem_keys_of_lookupKey_eq_none {α : Type} {k : Nat} {l : List (Nat × α)}
    (h : lookupKey k l = none) : k ∉ keysOf l := by
  intro hk
  have := lookupKey_isSome_of_mem_keys hk
  rw [h] at this
  simp at this

theorem eraseKey_eq_of_not_mem {α : Type} {k : Nat} {l : List (Nat × α)}
    (h : k ∉ keysOf l) : eraseKey k l = l := by
  induction l with
  | nil => rfl
  | cons p rest ih =>
    simp [keysOf] at h
    have h1 : p.1 ≠ k := fun hc => h.1 hc.symm
    simp [eraseKey_cons, h1, ih (by simp [keysOf]; exact h.2)]

/-- The interval handles of the live timers, in map order. -/
def handlesOf (l : List (Nat × TimerRec)) : List Nat :=
  l.map (fun p => p.2.intervalId)

theorem mem_handlesOf {x : Nat} {l : List (Nat × TimerRec)} :
    x ∈ handlesOf l ↔ ∃ p ∈ l, p.2.intervalId = x := by
  simp [handlesOf]

theorem handlesOf_setKey (id : Nat) (r : TimerRec) (l : List (Nat × TimerRec)) :
    handlesOf (setKey id r l) = handlesOf (eraseKey id l) ++ [r.intervalId] := by
  simp [handlesOf, setKey]

theorem handlesOf_eraseKey_sublist (id : Nat) (l : List (Nat × TimerRec)) :
    (handlesOf (eraseKey id l)).Sublist (handlesOf l) := by
  exact (List.filter_sublist l).map _

/-- With pairwise distinct keys and handles, deleting the entry of the key
removes exactly its handle from the handle multiset. -/
theorem mem_handlesOf_eraseKey {id : Nat} {t : TimerRec} {l : List (Nat × TimerRec)}
    (hkeys : (keysOf l).Nodup) (hh : (handlesOf l).Nodup)
    (ht : lookupKey id l = some t) {x : Nat} :
    x ∈ handlesOf (eraseKey id l) ↔ x ∈ handlesOf l ∧ x ≠ t.intervalId := by
  have hmem : (id, t) ∈ l := mem_of_lookupKey_eq_some ht
  have hinj : ∀ p ∈ l, ∀ q ∈ l, p.2.intervalId = q.2.intervalId → p = q := by
    intro p hp q hq hpq
    exact List.inj_on_of_nodup_map hh hp hq hpq
  have hkinj : ∀ p ∈ l, ∀ q ∈ l, p.1 = q.1 → p = q := by
    intro p hp q hq hpq
    exact List.inj_on_of_nodup_map hkeys hp hq hpq
  constructor
  · intro hx
    rw [mem_handlesOf] at hx
    obtain ⟨p, hp, hpx⟩ := hx
    have hpl := (mem_eraseKey.1 hp).1
    have hpk := (mem_eraseKey.1 hp).2
    refine ⟨mem_handlesOf.2 ⟨p, hpl, hpx⟩, ?_⟩
    intro hc
    have : p = (id, t) := hinj p hpl (id, t) hmem (by rw [hpx, hc])
    exact hpk (by rw [this])
  · rintro ⟨hx, hne⟩
    rw [mem_handlesOf] at hx
    obtain ⟨p, hp, hpx⟩ := hx
    rw [mem_handlesOf]
    refine ⟨p, mem_eraseKey.2 ⟨hp, ?_⟩, hpx⟩
    intro hc
    have : p = (id, t) := hkinj p hp (id, t) hmem hc
    rw [this] at hpx
    exact hne (by rw [← hpx])

/-! Event stream helpers. -/

/-- The subsequence of events carrying the given timer id. -/
def eventsFor (k : Nat) (evs : List Event) : List Event :=
  evs.filter (fun e => e.timerId == k)

/-- Events a countdown has produced after its start and j ticks:
timer:started with n, then updates n-1, n-2, ..., n-j. -/
def countdownEvents (k : Nat) (n : Rat) (j : Nat) : List Event :=
  Event.started k n :: (List.range j).map (fun i => Event.update k (n - ((i : Rat) + 1)))

/-- Terminal events (timer:done or timer:stopped) of the given id. -/
def isTerminalFor (k : Nat) : Event → Bool
  | .done i => i == k
  | .stopped i => i == k
  | _ => false

def terminalsFor (k : Nat) (evs : List Event) : List Event :=
  evs.filter (isTerminalFor k)

/-- Selects update events of the given id. -/
def isUpdateFor (k : Nat) : Event → Bool
  | .update i _ => i == k
  | _ => false

def updatesFor (k : Nat) (evs : List Event) : List Event :=
  evs.filter (isUpdateFor k)

theorem eventsFor_append (k : Nat) (a b : List Event) :
    eventsFor k (a ++ b) = eventsFor k a ++ eventsFor k b := by
  simp [eventsFor]

theorem eventsFor_single_eq {k : Nat} {e : Event} (h : e.timerId = k) :
    eventsFor k [e] = [e] := by
  simp [eventsFor, List.filter_cons, h]

theorem eventsFor_single_ne {k : Nat} {e : Event} (h : e.timerId ≠ k) :
    eventsFor k [e] = [] := by
  simp [eventsFor, List.filter_cons, h]

theorem mem_eventsFor {k : Nat} {e : Event} {evs : List Event} :
    e ∈ eventsFor k evs ↔ e ∈ evs ∧ e.timerId = k := by
  simp [eventsFor, List.mem_filter]

theorem countdownEvents_succ (k : Nat) (n : Rat) (j : Nat) :
    countdownEvents k n (j + 1) =
      countdownEvents k n j ++ [Event.update k (n - ((j : Rat) + 1))] := by
  simp [countdownEvents, List.range_succ]

theorem done_not_mem_countdownEvents (k k1 : Nat) (n : Rat) (j : Nat) :
    Event.done k1 ∉ countdownEvents k n j := by
  intro h
  simp [countdownEvents] at h

theorem stopped_not_mem_countdownEvents (k k1 : Nat) (n : Rat) (j : Nat) :
    Event.stopped k1 ∉ countdownEvents k n j := by
  intro h
  simp [countdownEvents] at h

theorem started_mem_countdownEvents {k k1 : Nat} {n m : Rat} {j : Nat}
    (h : Event.started k1 m ∈ countdownEvents k n j) : k1 = k ∧ m = n := by
  simp [countdownEvents] at h
  exact ⟨h.1, h.2⟩

/-! The scheduling invariant: the timers object has pairwise distinct keys and
pairwise distinct interval handles, the scheduled handles are exactly the
handles held by live timers, and every held handle is below the allocator. -/

def CoreInv (s : RegState) : Prop :=
  (keysOf s.timers).Nodup ∧
  (handlesOf s.timers).Nodup ∧
  (∀ x, x ∈ s.scheduled ↔ x ∈ handlesOf s.timers) ∧
  s.scheduled.Nodup ∧
  (∀ p ∈ s.timers, p.2.intervalId < s.nextHandle)

theorem coreInv_initState : CoreInv initState := by
  refine ⟨List.nodup_nil, List.nodup_nil, ?_, List.nodup_nil, ?_⟩ <;>
    simp [initState, handlesOf]

theorem coreInv_startLocalTimer (ok : Bool) (id : Nat) (n : Rat) {s : RegState}
    (h : CoreInv s) : CoreInv (startLocalTimer ok id n s) := by
  obtain ⟨hkeys, hh, hsched, hsnd, hbound⟩ := h
  rw [startLocalTimer_eq]
  have hHfresh : s.nextHandle ∉ handlesOf s.timers := by
    intro hc
    rw [mem_handlesOf] at hc
    obtain ⟨p, hp, hpx⟩ := hc
    exact absurd (hpx ▸ hbound p hp) (lt_irrefl _)
  have hHsched : s.nextHandle ∉ s.scheduled := fun hc => hHfresh ((hsched _).1 hc)
  have herasednd : (handlesOf (eraseKey id s.timers)).Nodup :=
    hh.sublist (handlesOf_eraseKey_sublist id s.timers)
  have herasedsub : ∀ x, x ∈ handlesOf (eraseKey id s.timers) → x ∈ handlesOf s.timers := by
    intro x hx
    exact (handlesOf_eraseKey_sublist id s.timers).mem hx
  refine ⟨keysOf_nodup_setKey id _ hkeys, ?_, ?_, ?_, ?_⟩
  · rw [handlesOf_setKey]
    rw [List.nodup_append]
    refine ⟨herasednd, List.nodup_singleton _, ?_⟩
    intro x hx hxH
    simp at hxH
    subst hxH
    exact hHfresh (herasedsub _ hx)
  · intro x
    rw [handlesOf_setKey]
    cases ht : lookupKey id s.timers with
    | none =>
      have : eraseKey id s.timers = s.timers :=
        eraseKey_eq_of_not_mem (not_mem_keys_of_lookupKey_eq_none ht)
      simp only [ht, this]
      simp [hsched x]
    | some t =>
      simp only [ht]
      simp [mem_removeHandle, hsched x,
        mem_handlesOf_eraseKey hkeys hh ht]
  · cases ht : lookupKey id s.timers with
    | none =>
      simp only [ht]
      rw [List.nodup_append]
      exact ⟨hsnd, List.nodup_singleton _, by
        intro x hx hxH
        simp at hxH
        subst hxH
        exact hHsched hx⟩
    | some t =>
      simp only [ht]
      rw [List.nodup_append]
      refine ⟨hsnd.filter _, List.nodup_singleton _, ?_⟩
      intro x hx hxH
      simp at hxH
      subst hxH
      exact hHsched (mem_removeHandle.1 hx).1
  · intro p hp
    rcases mem_setKey.1 hp with ⟨hpl, _⟩ | hpe
    · exact Nat.lt_succ_of_lt (hbound p hpl)
    · rw [hpe]
      exact Nat.lt_succ_self _

theorem coreInv_stopTimer (ok : Bool) (id : Nat) {s : RegState}
    (h : CoreInv s) : CoreInv (stopTimer ok id s) := by
  obtain ⟨hkeys, hh, hsched, hsnd, hbound⟩ := h
  cases ht : lookupKey id s.timers with
  | none =>
    rw [stopTimer_not_live ok id s ht]
    exact ⟨hkeys, hh, hsched, hsnd, hbound⟩
  | some t =>
    rw [stopTimer_live ok id s t ht]
    refine ⟨?_, hh.sublist (handlesOf_eraseKey_sublist id s.timers), ?_, hsnd.filter _, ?_⟩
    · simpa [keysOf_eraseKey] using hkeys.filter _
    · intro x
      simp only
      rw [mem_removeHandle, hsched x, mem_handlesOf_eraseKey hkeys hh ht]
    · intro p hp
      exact hbound p (mem_eraseKey.1 hp).1

theorem coreInv_tick (ok : Bool) (id : Nat) {s : RegState}
    (h : CoreInv s) : CoreInv (tick ok id s) := by
  obtain ⟨hkeys, hh, hsched, hsnd, hbound⟩ := h
  cases ht : lookupKey id s.timers with
  | none =>
    rw [tick_not_live ok id s ht]
    exact ⟨hkeys, hh, hsched, hsnd, hbound⟩
  | some t =>
    by_cases hmem : t.intervalId ∈ s.scheduled
    · have htmem : (id, t) ∈ s.timers := mem_of_lookupKey_eq_some ht
      have hthandle : t.intervalId ∈ handlesOf s.timers :=
        mem_handlesOf.2 ⟨(id, t), htmem, rfl⟩
      by_cases hv : t.secondsLeft - 1 ≤ 0
      · rw [tick_live_done ok id s t ht hmem hv]
        refine ⟨?_, hh.sublist (handlesOf_eraseKey_sublist id s.timers), ?_,
          hsnd.filter _, ?_⟩
        · simpa [keysOf_eraseKey] using hkeys.filter _
        · intro x
          simp only
          rw [mem_removeHandle, hsched x, mem_handlesOf_eraseKey hkeys hh ht]
        · intro p hp
          exact hbound p (mem_eraseKey.1 hp).1
      · rw [tick_live_run ok id s t ht hmem hv]
        refine ⟨keysOf_nodup_setKey id _ hkeys, ?_, ?_, hsnd, ?_⟩
        · rw [handlesOf_setKey]
          rw [List.nodup_append]
          refine ⟨hh.sublist (handlesOf_eraseKey_sublist id s.timers),
            List.nodup_singleton _, ?_⟩
          intro x hx hxe
          simp at hxe
          subst hxe
          exact ((mem_handlesOf_eraseKey hkeys hh ht).1 hx).2 rfl
        · intro x
          rw [handlesOf_setKey]
          simp only [List.mem_append, List.mem_singleton,
            mem_handlesOf_eraseKey hkeys hh ht]
          rw [hsched x]
          constructor
          · intro hx
            by_cases hxe : x = t.intervalId
            · right
              exact hxe
            · left
              exact ⟨hx, hxe⟩
          · rintro (⟨hx, _⟩ | hx)
            · exact hx
            · rw [hx]
              exact hthandle
        · intro p hp
          rcases mem_setKey.1 hp with ⟨hpl, _⟩ | hpe
          · exact hbound p hpl
          · rw [hpe]
            exact hbound (id, t) htmem
    · rw [tick_not_scheduled ok id s t ht hmem]
      exact ⟨hkeys, hh, hsched, hsnd, hbound⟩

theorem coreInv_startTimer (ok : Bool) (n : Rat) {s : RegState}
    (h : CoreInv s) : CoreInv (startTimer ok n s).1 := by
  rw [startTimer_eq]
  exact coreInv_startLocalTimer ok _ n
    (by exact ⟨h.1, h.2.1, h.2.2.1, h.2.2.2.1, h.2.2.2.2⟩)

theorem coreInv_applyOp {s : RegState} (op : Op) (h : CoreInv s) :
    CoreInv (applyOp s op) := by
  cases op with
  | start ok n => exact coreInv_startTimer ok n h
  | stop ok id => exact coreInv_stopTimer ok id h
  | tick ok id => exact coreInv_tick ok id h

theorem coreInv_run {s : RegState} (ops : List Op) (h : CoreInv s) :
    CoreInv (run s ops) := by
  induction ops generalizing s with
  | nil => exact h
  | cons op rest ih => exact ih (coreInv_applyOp op h)

theorem coreInv_restoreFromRedis (ok : Bool) (records : List (Nat × Rat))
    {s : RegState} (h : CoreInv s) : CoreInv (restoreFromRedis ok records s) := by
  induction records generalizing s with
  | nil => exact h
  | cons r rest ih =>
    rw [restoreFromRedis]
    simp only [List.foldl_cons]
    rw [← restoreFromRedis]
    by_cases hr : r.1 ≠ 0 ∧ 0 < r.2
    · simp only [if_pos hr]
      exact ih (coreInv_startLocalTimer ok r.1 r.2 h)
    · simp only [if_neg hr]
      exact ih h

/-! The per-id event-history invariant, for runs of the manager whose live set
starts empty and whose ids all come from the counter (no restoration). -/

/-- History of a currently live timer with record t: a started event and j
update events counting down by exactly one, with the stored secondsLeft in
step with the last emitted value, and only the freshly-started timer may
hold a non-positive value. -/
def LiveShape (l : List Event) (k : Nat) (t : TimerRec) : Prop :=
  ∃ n : Rat, ∃ j : Nat, l = countdownEvents k n j ∧
    t.secondsLeft = n - (j : Rat) ∧ (0 < t.secondsLeft ∨ j = 0)

/-- History of an id that is not live: either nothing was ever emitted for it,
or a full countdown ended by one timer:done, or a countdown cut short by one
timer:stopped. -/
def DeadShape (l : List Event) (k : Nat) : Prop :=
  l = [] ∨
  (∃ n : Rat, ∃ j : Nat, l = countdownEvents k n j ++ [Event.done k] ∧
    n - (j : Rat) ≤ 0 ∧ 1 ≤ j ∧ (j = 1 ∨ 0 < n - ((j : Rat) - 1))) ∨
  (∃ n : Rat, ∃ j : Nat, l = countdownEvents k n j ++ [Event.stopped k] ∧
    (0 < n - (j : Rat) ∨ j = 0))

def GoodId (s : RegState) (k : Nat) : Prop :=
  (∀ t, lookupKey k s.timers = some t → LiveShape (eventsFor k s.events) k t) ∧
  (lookupKey k s.timers = none → DeadShape (eventsFor k s.events) k)

def TraceInv (s : RegState) : Prop :=
  (∀ p ∈ s.timers, p.1 ≤ s.counter) ∧
  (∀ k, s.counter < k → eventsFor k s.events = []) ∧
  (∀ k, GoodId s k)

theorem traceInv_initState : TraceInv initState := by
  refine ⟨by simp [initState], by intro k _; rfl, ?_⟩
  intro k
  constructor
  · intro t ht
    simp [initState, lookupKey] at ht
  · intro _
    left
    rfl

theorem eventsFor_append_ne {k : Nat} {e : Event} (evs : List Event)
    (h : e.timerId ≠ k) : eventsFor k (evs ++ [e]) = eventsFor k evs := by
  rw [eventsFor_append, eventsFor_single_ne h, List.append_nil]

theorem eventsFor_append_eq {k : Nat} {e : Event} (evs : List Event)
    (h : e.timerId = k) : eventsFor k (evs ++ [e]) = eventsFor k evs ++ [e] := by
  rw [eventsFor_append, eventsFor_single_eq h]

theorem traceInv_startTimer (ok : Bool) (n : Rat) {s : RegState}
    (h : TraceInv s) : TraceInv (startTimer ok n s).1 := by
  obtain ⟨hmem, hbig, hgood⟩ := h
  have hfresh : lookupKey (s.counter + 1) s.timers = none := by
    cases hl : lookupKey (s.counter + 1) s.timers with
    | none => rfl
    | some t =>
      have h2 := hmem _ (mem_of_lookupKey_eq_some hl)
      simp at h2
  rw [startTimer_eq, startLocalTimer_eq]
  simp only
  refine ⟨?_, ?_, ?_⟩
  · intro p hp
    rcases mem_setKey.1 hp with ⟨hpl, _⟩ | hpe
    · exact Nat.le_succ_of_le (hmem p hpl)
    · rw [hpe]
  · intro k hk
    have hk1 : s.counter < k := Nat.lt_of_succ_lt hk
    have hne : (Event.started (s.counter + 1) n).timerId ≠ k := by
      simp [Event.timerId]
      exact Nat.ne_of_lt hk
    rw [eventsFor_append_ne _ hne]
    exact hbig k hk1
  · intro k
    by_cases hk : k = s.counter + 1
    · subst hk
      constructor
      · intro t ht
        rw [lookupKey_setKey_self] at ht
        have hempty : eventsFor (s.counter + 1) s.events = [] :=
          hbig _ (Nat.lt_succ_self _)
        have heq : (Event.started (s.counter + 1) n).timerId = s.counter + 1 := rfl
        rw [eventsFor_append_eq _ heq, hempty]
        refine ⟨n, 0, by simp [countdownEvents], ?_, Or.inr rfl⟩
        cases ht
        simp
      · intro ht
        rw [lookupKey_setKey_self] at ht
        cases ht
    · have hls : lookupKey k (setKey (s.counter + 1)
          { secondsLeft := n, intervalId := s.nextHandle } s.timers) =
          lookupKey k s.timers := lookupKey_setKey_ne hk _ _
      have hne : (Event.started (s.counter + 1) n).timerId ≠ k := by
        simp [Event.timerId]
        exact fun hc => hk hc.symm
      constructor
      · intro t ht
        rw [hls] at ht
        rw [eventsFor_append_ne _ hne]
        exact (hgood k).1 t ht
      · intro ht
        rw [hls] at ht
        rw [eventsFor_append_ne _ hne]
        exact (hgood k).2 ht

theorem traceInv_stopTimer (ok : Bool) (id : Nat) {s : RegState}
    (h : TraceInv s) : TraceInv (stopTimer ok id s) := by
  obtain ⟨hmem, hbig, hgood⟩ := h
  cases ht : lookupKey id s.timers with
  | none =>
    rw [stopTimer_not_live ok id s ht]
    exact ⟨hmem, hbig, hgood⟩
  | some t =>
    have hid : id ≤ s.counter := hmem _ (mem_of_lookupKey_eq_some ht)
    rw [stopTimer_live ok id s t ht]
    refine ⟨?_, ?_, ?_⟩
    · intro p hp
      exact hmem p (mem_eraseKey.1 hp).1
    · intro k hk
      have hne : (Event.stopped id).timerId ≠ k := by
        simp [Event.timerId]
        exact Nat.ne_of_lt (Nat.lt_of_le_of_lt hid hk)
      rw [eventsFor_append_ne _ hne]
      exact hbig k hk
    · intro k
      by_cases hk : k = id
      · subst hk
        constructor
        · intro t1 ht1
          simp only at ht1
          rw [lookupKey_eraseKey_self] at ht1
          cases ht1
        · intro _
          obtain ⟨n, j, heq, hsl, hd⟩ := (hgood k).1 t ht
          have heqk : (Event.stopped k).timerId = k := rfl
          rw [eventsFor_append_eq _ heqk, heq]
          right
          right
          refine ⟨n, j, rfl, ?_⟩
          rcases hd with hd | hd
          · left
            rw [hsl] at hd
            exact hd
          · right
            exact hd
      · have hls : lookupKey k (eraseKey id s.timers) = lookupKey k s.timers :=
          lookupKey_eraseKey_ne hk _
        have hne : (Event.stopped id).timerId ≠ k := by
          simp [Event.timerId]
          exact fun hc => hk hc.symm
        constructor
        · intro t1 ht1
          simp only at ht1
          rw [hls] at ht1
          rw [eventsFor_append_ne _ hne]
          exact (hgood k).1 t1 ht1
        · intro ht1
          simp only at ht1
          rw [hls] at ht1
          rw [eventsFor_append_ne _ hne]
          exact (hgood k).2 ht1

theorem traceInv_tick (ok : Bool) (id : Nat) {s : RegState}
    (h : TraceInv s) : TraceInv (tick ok id s) := by
  obtain ⟨hmem, hbig, hgood⟩ := h
  cases ht : lookupKey id s.timers with
  | none =>
    rw [tick_not_live ok id s ht]
    exact ⟨hmem, hbig, hgood⟩
  | some t =>
    by_cases hsch : t.intervalId ∈ s.scheduled
    · have hid : id ≤ s.counter := hmem _ (mem_of_lookupKey_eq_some ht)
      obtain ⟨n, j, heq, hsl, hd⟩ := (hgood id).1 t ht
      have hpay : t.secondsLeft - 1 = n - ((j : Rat) + 1) := by
        rw [hsl]
        ring
      have hupd : (Event.update id (t.secondsLeft - 1)).timerId = id := rfl
      have hdone : (Event.done id).timerId = id := rfl
      have hsplit : s.events ++ [Event.update id (t.secondsLeft - 1), Event.done id] =
          (s.events ++ [Event.update id (t.secondsLeft - 1)]) ++ [Event.done id] := by
        simp
      by_cases hv : t.secondsLeft - 1 ≤ 0
      · rw [tick_live_done ok id s t ht hsch hv]
        refine ⟨?_, ?_, ?_⟩
        · intro p hp
          exact hmem p (mem_eraseKey.1 hp).1
        · intro k hk
          have h1 : (Event.update id (t.secondsLeft - 1)).timerId ≠ k := by
            rw [hupd]
            exact Nat.ne_of_lt (Nat.lt_of_le_of_lt hid hk)
          have h2 : (Event.done id).timerId ≠ k := by
            rw [hdone]
            exact Nat.ne_of_lt (Nat.lt_of_le_of_lt hid hk)
          simp only [hsplit]
          rw [eventsFor_append_ne _ h2, eventsFor_append_ne _ h1]
          exact hbig k hk
        · intro k
          by_cases hk : k = id
          · subst hk
            constructor
            · intro t1 ht1
              simp only at ht1
              rw [lookupKey_eraseKey_self] at ht1
              cases ht1
            · intro _
              simp only [hsplit]
              rw [eventsFor_append_eq _ hdone, eventsFor_append_eq _ hupd, heq]
              right
              left
              refine ⟨n, j + 1, ?_, ?_, ?_, ?_⟩
              · rw [countdownEvents_succ, hpay]
              · push_cast
                rw [← hpay]
                exact hv
              · exact Nat.succ_le_succ (Nat.zero_le j)
              · rcases hd with hd | hd
                · right
                  push_cast
                  have h3 : n - ((j : Rat) + 1 - 1) = n - (j : Rat) := by ring
                  rw [h3, ← hsl]
                  exact hd
                · left
                  rw [hd]
          · have h1 : (Event.update id (t.secondsLeft - 1)).timerId ≠ k := by
              rw [hupd]
              exact fun hc => hk hc.symm
            have h2 : (Event.done id).timerId ≠ k := by
              rw [hdone]
              exact fun hc => hk hc.symm
            have hls : lookupKey k (eraseKey id s.timers) = lookupKey k s.timers :=
              lookupKey_eraseKey_ne hk _
            constructor
            · intro t1 ht1
              simp only at ht1
              rw [hls] at ht1
              simp only [hsplit]
              rw [eventsFor_append_ne _ h2, eventsFor_append_ne _ h1]
              exact (hgood k).1 t1 ht1
            · intro ht1
              simp only at ht1
              rw [hls] at ht1
              simp only [hsplit]
              rw [eventsFor_append_ne _ h2, eventsFor_append_ne _ h1]
              exact (hgood k).2 ht1
      · rw [tick_live_run ok id s t ht hsch hv]
        refine ⟨?_, ?_, ?_⟩
        · intro p hp
          rcases mem_setKey.1 hp with ⟨hpl, _⟩ | hpe
          · exact hmem p hpl
          · rw [hpe]
            exact hid
        · intro k hk
          have h1 : (Event.update id (t.secondsLeft - 1)).timerId ≠ k := by
            rw [hupd]
            exact Nat.ne_of_lt (Nat.lt_of_le_of_lt hid hk)
          rw [eventsFor_append_ne _ h1]
          exact hbig k hk
        · intro k
          by_cases hk : k = id
          · subst hk
            constructor
            · intro t1 ht1
              simp only at ht1
              rw [lookupKey_setKey_self] at ht1
              cases ht1
              rw [eventsFor_append_eq _ hupd, heq]
              refine ⟨n, j + 1, ?_, ?_, ?_⟩
              · rw [countdownEvents_succ, hpay]
              · simp only
                push_cast
                rw [hpay]
              · left
                simp only
                exact lt_of_not_le hv
            · intro ht1
              simp only at ht1
              rw [lookupKey_setKey_self] at ht1
              cases ht1
          · have h1 : (Event.update id (t.secondsLeft - 1)).timerId ≠ k := by
              rw [hupd]
              exact fun hc => hk hc.symm
            have hls : lookupKey k (setKey id
                { secondsLeft := t.secondsLeft - 1, intervalId := t.intervalId } s.timers) =
                lookupKey k s.timers := lookupKey_setKey_ne hk _ _
            constructor
            · intro t1 ht1
              simp only at ht1
              rw [hls] at ht1
              rw [eventsFor_append_ne _ h1]
              exact (hgood k).1 t1 ht1
            · intro ht1
              simp only at ht1
              rw [hls] at ht1
              rw [eventsFor_append_ne _ h1]
              exact (hgood k).2 ht1
    · rw [tick_not_scheduled ok id s t ht hsch]
      exact ⟨hmem, hbig, hgood⟩

theorem traceInv_applyOp {s : RegState} (op : Op) (h : TraceInv s) :
    TraceInv (applyOp s op) := by
  cases op with
  | start ok n => exact traceInv_startTimer ok n h
  | stop ok id => exact traceInv_stopTimer ok id h
  | tick ok id => exact traceInv_tick ok id h

theorem traceInv_run {s : RegState} (ops : List Op) (h : TraceInv s) :
    TraceInv (run s ops) := by
  induction ops generalizing s with
  | nil => exact h
  | cons op rest ih => exact ih (traceInv_applyOp op h)

/-! Suffix reasoning and restoration helpers. -/

theorem eventsFor_cons_eq {k : Nat} {e : Event} (l : List Event)
    (h : e.timerId = k) : eventsFor k (e :: l) = e :: eventsFor k l := by
  simp [eventsFor, List.filter_cons, h]

theorem concat_eq_append_cons {α : Type} :
    ∀ (A xs : List α) (a : α) (B : List α),
      xs ++ [a] = A ++ a :: B → a ∉ xs → B = [] := by
  intro A
  induction A with
  | nil =>
    intro xs a B hEq hmem
    cases xs with
    | nil =>
      simp at hEq
      exact hEq
    | cons x rest =>
      simp at hEq
      exact absurd (by simp [hEq.1]) hmem
  | cons c A1 ih =>
    intro xs a B hEq hmem
    cases xs with
    | nil =>
      simp at hEq
    | cons x rest =>
      simp at hEq
      rcases hEq with ⟨_, hEq2⟩
      exact ih rest a B (by simpa using hEq2) (fun hc => hmem (List.mem_cons_of_mem _ hc))

theorem restoreFromRedis_cons (ok : Bool) (r : Nat × Rat) (rest : List (Nat × Rat))
    (s : RegState) :
    restoreFromRedis ok (r :: rest) s =
      restoreFromRedis ok rest
        (if r.1 ≠ 0 ∧ 0 < r.2 then startLocalTimer ok r.1 r.2 s else s) := by
  simp [restoreFromRedis]

theorem mem_events_startLocalTimer {e : Event} (ok : Bool) (id : Nat) (n : Rat)
    (s : RegState) (h : e ∈ s.events) : e ∈ (startLocalTimer ok id n s).events := by
  rw [startLocalTimer_eq]
  simp only [List.mem_append]
  exact Or.inl h

theorem mem_events_restoreFromRedis {e : Event} (ok : Bool)
    (records : List (Nat × Rat)) {s : RegState} (h : e ∈ s.events) :
    e ∈ (restoreFromRedis ok records s).events := by
  induction records generalizing s with
  | nil => exact h
  | cons r rest ih =>
    rw [restoreFromRedis_cons]
    by_cases hr : r.1 ≠ 0 ∧ 0 < r.2
    · rw [if_pos hr]
      exact ih (mem_events_startLocalTimer ok r.1 r.2 s h)
    · rw [if_neg hr]
      exact ih h

theorem lookupKey_restoreFromRedis_not_mem {k : Nat} (ok : Bool)
    (records : List (Nat × Rat)) {s : RegState}
    (h : k ∉ records.map Prod.fst) :
    lookupKey k (restoreFromRedis ok records s).timers = lookupKey k s.timers := by
  induction records generalizing s with
  | nil => rfl
  | cons r rest ih =>
    simp at h
    rw [restoreFromRedis_cons]
    by_cases hr : r.1 ≠ 0 ∧ 0 < r.2
    · rw [if_pos hr]
      rw [ih (by simp [h.2])]
      rw [startLocalTimer_eq]
      simp only
      exact lookupKey_setKey_ne h.1 _ _
    · rw [if_neg hr]
      exact ih (by simp [h.2])

/-! Claim C1. -/

/-- C1 (amended: restricted to runs of the manager whose live set starts
empty, i.e. in which restoration installed no timer — with restoration a
persisted id can later collide with a counter-allocated id and mix two
countdowns under one id).  For a timer started with positive integer duration
N, the events carrying its id form the started event followed by update
events that decrease by exactly 1 per tick (N-1, N-2, ..., down to at least
0), closed by at most one terminal event; when timer:done has been emitted
for the id, the updates ran down to exactly 0 (j = N) and no event carrying
that id ever follows the done event. -/
theorem countdown_update_history (ops : List Op) (k N : Nat) (hN : 0 < N)
    (hstart : Event.started k (N : Rat) ∈ (run initState ops).events) :
    ∃ j : Nat, ∃ tail : List Event, j ≤ N ∧
      eventsFor k (run initState ops).events = countdownEvents k (N : Rat) j ++ tail ∧
      (tail = [] ∨ tail = [Event.done k] ∨ tail = [Event.stopped k]) ∧
      (Event.done k ∈ (run initState ops).events → tail = [Event.done k] ∧ j = N) ∧
      (∀ l1 l2, (run initState ops).events = l1 ++ Event.done k :: l2 →
        eventsFor k l2 = []) := by
  obtain ⟨hmem, hbig, hgood⟩ := traceInv_run ops traceInv_initState
  have hstart1 : Event.started k (N : Rat) ∈ eventsFor k (run initState ops).events :=
    mem_eventsFor.2 ⟨hstart, rfl⟩
  cases ht : lookupKey k (run initState ops).timers with
  | some t =>
    obtain ⟨n, j, heq, hsl, hd⟩ := (hgood k).1 t ht
    rw [heq] at hstart1
    have hnN : n = (N : Rat) := ((started_mem_countdownEvents hstart1).2).symm
    subst hnN
    have hdone_not : Event.done k ∉ eventsFor k (run initState ops).events := by
      rw [heq]
      exact done_not_mem_countdownEvents k k _ j
    refine ⟨j, [], ?_, by rw [heq, List.append_nil], Or.inl rfl, ?_, ?_⟩
    · rcases hd with hd | hd
      · rw [hsl] at hd
        have h3 : (j : Rat) < (N : Rat) := by linarith [sub_pos.1 hd]
        exact le_of_lt (by exact_mod_cast h3)
      · rw [hd]
        exact Nat.zero_le N
    · intro hdone
      exact absurd (mem_eventsFor.2 ⟨hdone, rfl⟩) hdone_not
    · intro l1 l2 hEq
      have h4 : Event.done k ∈ (run initState ops).events := by
        rw [hEq]
        simp
      exact absurd (mem_eventsFor.2 ⟨h4, rfl⟩) hdone_not
  | none =>
    rcases (hgood k).2 ht with hsh | hsh | hsh
    · rw [hsh] at hstart1
      simp at hstart1
    · obtain ⟨n, j, heq, h0, h1, h2⟩ := hsh
      rw [heq] at hstart1
      have hstart2 : Event.started k (N : Rat) ∈ countdownEvents k n j := by
        rcases List.mem_append.1 hstart1 with h | h
        · exact h
        · simp at h
      have hnN : n = (N : Rat) := ((started_mem_countdownEvents hstart2).2).symm
      subst hnN
      have hNj : N ≤ j := by exact_mod_cast sub_nonpos.1 h0
      have hjN : j = N := by
        rcases h2 with h2 | h2
        · omega
        · have h5 : (j : Rat) < (N : Rat) + 1 := by linarith [sub_pos.1 h2]
          have h6 : j < N + 1 := by exact_mod_cast h5
          omega
      have hdone_not_c : Event.done k ∉ countdownEvents k (N : Rat) j :=
        done_not_mem_countdownEvents k k _ j
      refine ⟨j, [Event.done k], le_of_eq hjN, heq, Or.inr (Or.inl rfl),
        fun _ => ⟨rfl, hjN⟩, ?_⟩
      intro l1 l2 hEq
      have hdk : (Event.done k).timerId = k := rfl
      have hsplit : eventsFor k (run initState ops).events
          = eventsFor k l1 ++ Event.done k :: eventsFor k l2 := by
        rw [hEq, eventsFor_append, eventsFor_cons_eq _ hdk]
      rw [heq] at hsplit
      exact concat_eq_append_cons (eventsFor k l1) _ _ _ hsplit hdone_not_c
    · obtain ⟨n, j, heq, hcond⟩ := hsh
      rw [heq] at hstart1
      have hstart2 : Event.started k (N : Rat) ∈ countdownEvents k n j := by
        rcases List.mem_append.1 hstart1 with h | h
        · exact h
        · simp at h
      have hnN : n = (N : Rat) := ((started_mem_countdownEvents hstart2).2).symm
      subst hnN
      have hdone_not : Event.done k ∉ eventsFor k (run initState ops).events := by
        rw [heq]
        intro hc
        rcases List.mem_append.1 hc with h | h
        · exact done_not_mem_countdownEvents k k _ j h
        · simp at h
      refine ⟨j, [Event.stopped k], ?_, heq, Or.inr (Or.inr rfl), ?_, ?_⟩
      · rcases hcond with hc | hc
        · have h3 : (j : Rat) < (N : Rat) := by linarith [sub_pos.1 hc]
          exact le_of_lt (by exact_mod_cast h3)
        · rw [hc]
          exact Nat.zero_le N
      · intro hdone
        exact absurd (mem_eventsFor.2 ⟨hdone, rfl⟩) hdone_not
      · intro l1 l2 hEq
        have h4 : Event.done k ∈ (run initState ops).events := by
          rw [hEq]
          simp
        exact absurd (mem_eventsFor.2 ⟨h4, rfl⟩) hdone_not

/-- C1 witness: the history theorem applied to a concrete run, start(2)
followed by two ticks. -/
theorem countdown_update_history_check :
    0 < 2 ∧
    ∃ j : Nat, ∃ tail : List Event, j ≤ 2 ∧
      eventsFor 1 (run initState
        [Op.start true 2, Op.tick true 1, Op.tick true 1]).events =
        countdownEvents 1 ((2 : Nat) : Rat) j ++ tail ∧
      (tail = [] ∨ tail = [Event.done 1] ∨ tail = [Event.stopped 1]) ∧
      (Event.done 1 ∈ (run initState
        [Op.start true 2, Op.tick true 1, Op.tick true 1]).events →
        tail = [Event.done 1] ∧ j = 2) ∧
      (∀ l1 l2, (run initState
        [Op.start true 2, Op.tick true 1, Op.tick true 1]).events =
          l1 ++ Event.done 1 :: l2 → eventsFor 1 l2 = []) :=
  ⟨by norm_num,
   countdown_update_history [Op.start true 2, Op.tick true 1, Op.tick true 1] 1 2
     (by norm_num)
     (by norm_num [run, applyOp, startTimer, startLocalTimer, tick,
       persistTimerToRedis, removeTimerFromRedis, lookupKey, setKey, eraseKey,
       removeHandle, initState])⟩

/-- C1 counterexample to the unrestricted claim: with a persisted record
(id 1, 10 seconds) restored at startup, one tick, then start(3) — which
reuses id 1 — and another tick, the update events carrying id 1 are 9 and
then 2: the successive update events for the id of a timer started with the
positive integer duration 3 do not decrease by exactly 1. -/
theorem countdown_claim_fails_with_restoration :
    Event.started 1 3 ∈ (run (restoreFromRedis true [(1, 10)] initState)
        [Op.tick true 1, Op.start true 3, Op.tick true 1]).events ∧
    updatesFor 1 (run (restoreFromRedis true [(1, 10)] initState)
        [Op.tick true 1, Op.start true 3, Op.tick true 1]).events =
      [Event.update 1 9, Event.update 1 2] ∧
    ¬ ((9 : Rat) - 1 = 2) := by
  refine ⟨?_, ?_, by norm_num⟩ <;>
    norm_num [run, applyOp, startTimer, startLocalTimer, tick,
      persistTimerToRedis, removeTimerFromRedis, lookupKey, setKey, eraseKey,
      removeHandle, initState, restoreFromRedis, updatesFor, isUpdateFor,
      List.filter_cons]

/-! Claim C2. -/

/-- C2: in every reachable state (any restoration, any interleaving of
start/stop/tick with any persistence outcomes) the scheduled callback handles
are exactly the handles held by the live timers, without duplicates — so each
timer id has at most one active countdown callback; moreover installing a
timer under an id that is already live removes that id's previous handle from
the scheduled set. -/
theorem single_scheduled_callback_per_id (ok : Bool) (records : List (Nat × Rat))
    (ops : List Op) :
    ((run (restoreFromRedis ok records initState) ops).scheduled.Nodup ∧
     (∀ x, x ∈ (run (restoreFromRedis ok records initState) ops).scheduled ↔
        x ∈ handlesOf (run (restoreFromRedis ok records initState) ops).timers) ∧
     (handlesOf (run (restoreFromRedis ok records initState) ops).timers).Nodup) ∧
    (∀ (ok2 : Bool) (id : Nat) (n : Rat) (t : TimerRec),
      lookupKey id (run (restoreFromRedis ok records initState) ops).timers = some t →
      t.intervalId ∉
        (startLocalTimer ok2 id n (run (restoreFromRedis ok records initState) ops)).scheduled) := by
  obtain ⟨hkeys, hh, hsched, hsnd, hbound⟩ :=
    coreInv_run ops (coreInv_restoreFromRedis ok records coreInv_initState)
  refine ⟨⟨hsnd, hsched, hh⟩, ?_⟩
  intro ok2 id n t ht
  rw [startLocalTimer_eq]
  simp only [ht]
  intro hc
  rcases List.mem_append.1 hc with hc | hc
  · exact (mem_removeHandle.1 hc).2 rfl
  · simp at hc
    have := hbound _ (mem_of_lookupKey_eq_some ht)
    rw [hc] at this
    exact absurd this (lt_irrefl _)

/-- C2 witness: after start(5) from an empty manager, re-installing id 1
removes the previous interval handle 0 from the scheduled set. -/
theorem single_scheduled_callback_per_id_check :
    TimerRec.intervalId { secondsLeft := 5, intervalId := 0 } ∉
      (startLocalTimer true 1 7
        (run (restoreFromRedis true [] initState) [Op.start true 5])).scheduled :=
  (single_scheduled_callback_per_id true [] [Op.start true 5]).2 true 1 7
    { secondsLeft := 5, intervalId := 0 }
    (by norm_num [run, applyOp, startTimer, startLocalTimer, persistTimerToRedis,
      lookupKey, setKey, eraseKey, initState, restoreFromRedis])

/-! Claim C3. -/

theorem terminalsFor_append (k : Nat) (a b : List Event) :
    terminalsFor k (a ++ b) = terminalsFor k a ++ terminalsFor k b := by
  simp [terminalsFor]

theorem terminalsFor_countdownEvents (k : Nat) (n : Rat) (j : Nat) :
    terminalsFor k (countdownEvents k n j) = [] := by
  simp only [terminalsFor, countdownEvents, List.filter_cons]
  have h1 : isTerminalFor k (Event.started k n) = false := rfl
  rw [h1]
  simp only [Bool.false_eq_true, if_false]
  rw [List.filter_eq_nil_iff]
  intro e he
  rcases List.mem_map.1 he with ⟨i, _, hi⟩
  rw [← hi]
  simp [isTerminalFor]

theorem terminalsFor_eventsFor (k : Nat) (evs : List Event) :
    terminalsFor k (eventsFor k evs) = terminalsFor k evs := by
  rw [terminalsFor, eventsFor, List.filter_filter]
  apply List.filter_congr
  intro e _
  cases e <;> simp [isTerminalFor, Event.timerId]

/-- C3 (amended: the idempotent no-op stop is exact and unconditional; the
derived uniqueness of the terminal event per id holds for runs whose live set
starts empty — with restoration a persisted id can be reallocated by start
and receive a second terminal event).  stop(id) for an id that is not live
returns the state completely unchanged and emits nothing; and in any run
from the empty manager at most one terminal event (timer:done or
timer:stopped) is ever emitted per id. -/
theorem stop_idempotent_and_single_terminal :
    (∀ (ok : Bool) (id : Nat) (s : RegState),
        lookupKey id s.timers = none → stopTimer ok id s = s) ∧
    (∀ (ops : List Op) (k : Nat),
        (terminalsFor k (run initState ops).events).length ≤ 1) := by
  constructor
  · intro ok id s h
    exact stopTimer_not_live ok id s h
  · intro ops k
    obtain ⟨hmem, hbig, hgood⟩ := traceInv_run ops traceInv_initState
    rw [← terminalsFor_eventsFor]
    cases ht : lookupKey k (run initState ops).timers with
    | some t =>
      obtain ⟨n, j, heq, _, _⟩ := (hgood k).1 t ht
      rw [heq, terminalsFor_countdownEvents]
      simp
    | none =>
      rcases (hgood k).2 ht with hsh | hsh | hsh
      · rw [hsh]
        simp [terminalsFor]
      · obtain ⟨n, j, heq, _⟩ := hsh
        rw [heq, terminalsFor_append, terminalsFor_countdownEvents]
        simp [terminalsFor, List.filter_cons, isTerminalFor]
      · obtain ⟨n, j, heq, _⟩ := hsh
        rw [heq, terminalsFor_append, terminalsFor_countdownEvents]
        simp [terminalsFor, List.filter_cons, isTerminalFor]

/-- C3 witness: stopping the never-started id 5 in the fresh manager is an
exact no-op, and a run that starts and finishes one timer emits at most one
terminal event for its id. -/
theorem stop_idempotent_and_single_terminal_check :
    stopTimer true 5 initState = initState ∧
    (terminalsFor 1 (run initState [Op.start true 1, Op.tick true 1]).events).length ≤ 1 :=
  ⟨stop_idempotent_and_single_terminal.1 true 5 initState rfl,
   stop_idempotent_and_single_terminal.2 [Op.start true 1, Op.tick true 1] 1⟩

/-- C3 counterexample to the unrestricted uniqueness consequence: restore a
persisted record (id 1, 5 seconds), stop it (emitting timer:stopped for 1),
then start(3) — the counter was not advanced past restored ids, so start
returns id 1 again — and let the new countdown expire: id 1 also receives
timer:done, i.e. two terminal events for one id. -/
theorem stop_claim_two_terminals :
    terminalsFor 1 (run (restoreFromRedis true [(1, 5)] initState)
        [Op.stop true 1, Op.start true 3, Op.tick true 1, Op.tick true 1,
         Op.tick true 1]).events = [Event.stopped 1, Event.done 1] ∧
    ¬ ((terminalsFor 1 (run (restoreFromRedis true [(1, 5)] initState)
        [Op.stop true 1, Op.start true 3, Op.tick true 1, Op.tick true 1,
         Op.tick true 1]).events).length ≤ 1) := by
  constructor <;>
    norm_num [run, applyOp, startTimer, startLocalTimer, tick, stopTimer,
      persistTimerToRedis, removeTimerFromRedis, lookupKey, setKey, eraseKey,
      removeHandle, initState, restoreFromRedis, terminalsFor, isTerminalFor,
      List.filter_cons]

/-! Claim C4. -/

theorem not_mem_listTimers_no_key {id : Nat} {v : Rat} {l : List (Nat × TimerRec)}
    (h : lookupKey id l = none) :
    (id, v) ∉ l.map (fun p => (p.1, p.2.secondsLeft)) := by
  intro hc
  rcases List.mem_map.1 hc with ⟨p, hp, hpe⟩
  have h1 : p.1 = id := congrArg Prod.fst hpe
  have h2 : id ∈ keysOf l := by
    rw [← h1]
    exact List.mem_map_of_mem _ hp
  have := lookupKey_isSome_of_mem_keys h2
  rw [h] at this
  simp at this

/-- C4: the listing reflects the live set exactly.  Immediately after
startTimer(n) returns id X the listing contains the entry (X, n); after the
tick that finishes a timer (its terminal timer:done transition) and after a
stopTimer (its terminal timer:stopped transition), the listing contains no
entry for that id. -/
theorem listing_reflects_live_set :
    (∀ (ok : Bool) (n : Rat) (s : RegState),
      ((startTimer ok n s).2, n) ∈ listTimers (startTimer ok n s).1) ∧
    (∀ (ok : Bool) (id : Nat) (s : RegState) (t : TimerRec),
      lookupKey id s.timers = some t → t.intervalId ∈ s.scheduled →
      t.secondsLeft - 1 ≤ 0 → ∀ v, (id, v) ∉ listTimers (tick ok id s)) ∧
    (∀ (ok : Bool) (id : Nat) (s : RegState) (v : Rat),
      (id, v) ∉ listTimers (stopTimer ok id s)) := by
  refine ⟨?_, ?_, ?_⟩
  · intro ok n s
    rw [startTimer_eq]
    simp only
    rw [startLocalTimer_eq]
    simp [listTimers, setKey]
  · intro ok id s t ht hs hv v
    rw [tick_live_done ok id s t ht hs hv]
    exact not_mem_listTimers_no_key (lookupKey_eraseKey_self id s.timers)
  · intro ok id s v
    cases ht : lookupKey id s.timers with
    | none =>
      rw [stopTimer_not_live ok id s ht]
      exact not_mem_listTimers_no_key ht
    | some t =>
      rw [stopTimer_live ok id s t ht]
      exact not_mem_listTimers_no_key (lookupKey_eraseKey_self id s.timers)

/-- C4 witness: concrete listing checks after a start, a finishing tick and a
stop. -/
theorem listing_reflects_live_set_check :
    ((startTimer true 5 initState).2, (5 : Rat)) ∈
      listTimers (startTimer true 5 initState).1 ∧
    ((1 : Nat), (0 : Rat)) ∉ listTimers (tick true 1 (startTimer true 1 initState).1) ∧
    ((1 : Nat), (1 : Rat)) ∉ listTimers (stopTimer true 1 (startTimer true 1 initState).1) :=
  ⟨listing_reflects_live_set.1 true 5 initState,
   listing_reflects_live_set.2.1 true 1 (startTimer true 1 initState).1
     { secondsLeft := 1, intervalId := 0 }
     (by norm_num [startTimer, startLocalTimer, persistTimerToRedis, lookupKey,
       setKey, eraseKey, initState])
     (by norm_num [startTimer, startLocalTimer, persistTimerToRedis, lookupKey,
       setKey, eraseKey, initState])
     (by norm_num) 0,
   listing_reflects_live_set.2.2 true 1 (startTimer true 1 initState).1 1⟩

/-! Claim C5. -/

theorem restore_installs {ok : Bool} {records : List (Nat × Rat)} :
    ∀ {s : RegState} {k : Nat} {v : Rat},
      (records.map Prod.fst).Nodup → (k, v) ∈ records → k ≠ 0 → 0 < v →
      (lookupKey k (restoreFromRedis ok records s).timers).map
          TimerRec.secondsLeft = some v ∧
      Event.started k v ∈ (restoreFromRedis ok records s).events := by
  induction records with
  | nil =>
    intro s k v _ hmem _ _
    simp at hmem
  | cons r rest ih =>
    intro s k v hnd hmem hk hv
    have hnd1 : (rest.map Prod.fst).Nodup := (List.nodup_cons.1 hnd).2
    rw [restoreFromRedis_cons]
    rcases List.mem_cons.1 hmem with hr | hr
    · have hcond : r.1 ≠ 0 ∧ 0 < r.2 := by
        rw [← hr]
        exact ⟨hk, hv⟩
      rw [if_pos hcond]
      have hknotin : k ∉ rest.map Prod.fst := by
        have := (List.nodup_cons.1 hnd).1
        rw [← hr] at this
        exact this
      constructor
      · rw [lookupKey_restoreFromRedis_not_mem ok rest hknotin]
        rw [← hr]
        rw [startLocalTimer_eq]
        simp only
        rw [lookupKey_setKey_self]
        rfl
      · apply mem_events_restoreFromRedis
        rw [← hr]
        rw [startLocalTimer_eq]
        simp
    · exact ih hnd1 hr hk hv

/-- C5 (amended: restoration does re-install every well-formed positive
record at exactly its persisted secondsLeft — a resume, not a reset — but,
because it re-installs through startLocalTimer, it DOES emit a timer:started
event for each restored timer, carrying the persisted value). -/
theorem restoration_resumes_at_persisted_value (ok : Bool)
    (records : List (Nat × Rat)) (k : Nat) (v : Rat)
    (hnd : (records.map Prod.fst).Nodup) (hmem : (k, v) ∈ records)
    (hk : k ≠ 0) (hv : 0 < v) :
    (lookupKey k (restoreFromRedis ok records initState).timers).map
        TimerRec.secondsLeft = some v ∧
    Event.started k v ∈ (restoreFromRedis ok records initState).events :=
  restore_installs hnd hmem hk hv

/-- C5 witness: restoring the single record (1, 7) resumes id 1 at 7 seconds
(and emits timer:started with the persisted value 7). -/
theorem restoration_resumes_at_persisted_value_check :
    (lookupKey 1 (restoreFromRedis true [(1, 7)] initState).timers).map
        TimerRec.secondsLeft = some 7 ∧
    Event.started 1 7 ∈ (restoreFromRedis true [(1, 7)] initState).events :=
  restoration_resumes_at_persisted_value true [(1, 7)] 1 7 (by simp)
    (by simp) (by norm_num) (by norm_num)

/-- C5 counterexample to "without emitting a started event": restoring the
persisted record (1, 7) does emit timer:started for id 1. -/
theorem restore_emits_started_event :
    Event.started 1 7 ∈ (restoreFromRedis true [(1, 7)] initState).events := by
  norm_num [restoreFromRedis, startLocalTimer, persistTimerToRedis, lookupKey,
    setKey, eraseKey, initState]

/-! Claim C6. -/

/-- Everything a caller or observer of the registry can see: counter, live
timers, interval allocation, scheduled handles, emitted events, connection
status — everything except the Redis key space. -/
def visibleState (s : RegState) :
    Nat × List (Nat × TimerRec) × Nat × List Nat × List Event × Bool :=
  (s.counter, s.timers, s.nextHandle, s.scheduled, s.events, s.connOpen)

/-- C6: persistence is best effort.  A failed (or absent) store write or
delete (ok = false) leaves every registry-visible outcome of startTimer,
stopTimer and a tick — including the returned id and the listing — identical
to the successful-store outcome; in particular stop of a live timer still
removes it and still emits timer:stopped even when the store delete fails. -/
theorem persistence_failure_invisible :
    (∀ (n : Rat) (s : RegState),
      visibleState (startTimer false n s).1 = visibleState (startTimer true n s).1 ∧
      (startTimer false n s).2 = (startTimer true n s).2) ∧
    (∀ (id : Nat) (s : RegState),
      visibleState (stopTimer false id s) = visibleState (stopTimer true id s)) ∧
    (∀ (id : Nat) (s : RegState),
      visibleState (tick false id s) = visibleState (tick true id s)) ∧
    (∀ (id : Nat) (s : RegState),
      listTimers (stopTimer false id s) = listTimers (stopTimer true id s)) ∧
    (∀ (id : Nat) (s : RegState) (t : TimerRec), lookupKey id s.timers = some t →
      lookupKey id (stopTimer false id s).timers = none ∧
      (stopTimer false id s).events = s.events ++ [Event.stopped id]) ∧
    (∀ (n : Rat) (s : RegState),
      lookupKey (startTimer false n s).2 (startTimer false n s).1.timers =
        some { secondsLeft := n, intervalId := s.nextHandle }) := by
  have hstop : ∀ (id : Nat) (s : RegState),
      (stopTimer false id s).timers = (stopTimer true id s).timers := by
    intro id s
    cases ht : lookupKey id s.timers with
    | none => rw [stopTimer_not_live false id s ht, stopTimer_not_live true id s ht]
    | some t => rw [stopTimer_live false id s t ht, stopTimer_live true id s t ht]
  refine ⟨?_, ?_, ?_, ?_, ?_, ?_⟩
  · intro n s
    constructor
    · rw [startTimer_eq, startTimer_eq]
      simp only
      rw [startLocalTimer_eq, startLocalTimer_eq]
      simp [visibleState]
    · rfl
  · intro id s
    cases ht : lookupKey id s.timers with
    | none => rw [stopTimer_not_live false id s ht, stopTimer_not_live true id s ht]
    | some t =>
      rw [stopTimer_live false id s t ht, stopTimer_live true id s t ht]
      simp [visibleState]
  · intro id s
    cases ht : lookupKey id s.timers with
    | none => rw [tick_not_live false id s ht, tick_not_live true id s ht]
    | some t =>
      by_cases hs : t.intervalId ∈ s.scheduled
      · by_cases hv : t.secondsLeft - 1 ≤ 0
        · rw [tick_live_done false id s t ht hs hv, tick_live_done true id s t ht hs hv]
          simp [visibleState]
        · rw [tick_live_run false id s t ht hs hv, tick_live_run true id s t ht hs hv]
          simp [visibleState]
      · rw [tick_not_scheduled false id s t ht hs, tick_not_scheduled true id s t ht hs]
  · intro id s
    rw [listTimers, listTimers, hstop id s]
  · intro id s t ht
    rw [stopTimer_live false id s t ht]
    exact ⟨lookupKey_eraseKey_self id s.timers, rfl⟩
  · intro n s
    rw [startTimer_eq]
    simp only
    rw [startLocalTimer_eq]
    simp only
    exact lookupKey_setKey_self _ _ _

/-- C6 witness: with a live timer 1 and the store failing, stop still removes
the timer and emits timer:stopped, and the visible outcome of the start that
created it matches the successful-store outcome. -/
theorem persistence_failure_invisible_check :
    (visibleState (startTimer false 5 initState).1 =
      visibleState (startTimer true 5 initState).1 ∧
     (startTimer false 5 initState).2 = (startTimer true 5 initState).2) ∧
    (lookupKey 1 (stopTimer false 1 (startTimer true 1 initState).1).timers = none ∧
     (stopTimer false 1 (startTimer true 1 initState).1).events =
       (startTimer true 1 initState).1.events ++ [Event.stopped 1]) :=
  ⟨persistence_failure_invisible.1 5 initState,
   persistence_failure_invisible.2.2.2.2.1 1 (startTimer true 1 initState).1
     { secondsLeft := 1, intervalId := 0 }
     (by norm_num [startTimer, startLocalTimer, persistTimerToRedis, lookupKey,
       setKey, eraseKey, initState])⟩

/-! Claim C7. -/

/-- C7: the start endpoint of the timer controller rejects every request
whose seconds value is not a finite positive number — NaN, infinities,
non-numbers and non-positive numbers — returning a validation error with the
registry untouched, and for a finite positive seconds it invokes the
registry and answers the allocated id together with the submitted seconds. -/
theorem start_request_validation :
    (∀ (ok : Bool) (v : JSValue) (s : RegState),
      ¬ isFinitePositive v → startTimerHandler ok v s = (none, s)) ∧
    (∀ (ok : Bool) (q : Rat) (s : RegState), 0 < q →
      startTimerHandler ok (JSValue.num q) s =
        (some ((startTimer ok q s).2, q), (startTimer ok q s).1)) := by
  constructor
  · intro ok v s hv
    cases v with
    | num q =>
      have hq : q ≤ 0 := not_lt.1 (by simpa [isFinitePositive] using hv)
      simp [startTimerHandler, hq]
    | nan => rfl
    | posInf => rfl
    | negInf => rfl
    | nonNumber => rfl
  · intro ok q s hq
    simp [startTimerHandler, not_le.2 hq]

/-- C7 witness: NaN is rejected with the registry untouched; 5 seconds is
accepted and answered with the id the registry allocated. -/
theorem start_request_validation_check :
    startTimerHandler true JSValue.nan initState = (none, initState) ∧
    startTimerHandler true (JSValue.num 5) initState =
      (some ((startTimer true 5 initState).2, 5), (startTimer true 5 initState).1) :=
  ⟨start_request_validation.1 true JSValue.nan initState (by simp [isFinitePositive]),
   start_request_validation.2 true 5 initState (by norm_num)⟩

/-! Claim C8. -/

/-- C8 evidence of the id-reuse bug: restoration installs the persisted
record (1, 10) as live timer 1 but does not advance the counter, so the next
startTimer call allocates id 1 again — one id identifies two distinct timers
within a single process lifetime, and the restored countdown is silently
replaced by the new one. -/
theorem start_reuses_restored_id :
    (lookupKey 1 (restoreFromRedis true [(1, 10)] initState).timers).map
        TimerRec.secondsLeft = some 10 ∧
    (startTimer true 5 (restoreFromRedis true [(1, 10)] initState)).2 = 1 ∧
    (lookupKey 1 (startTimer true 5
        (restoreFromRedis true [(1, 10)] initState)).1.timers).map
        TimerRec.secondsLeft = some 5 := by
  refine ⟨?_, ?_, ?_⟩ <;>
    norm_num [startTimer, startLocalTimer, persistTimerToRedis, lookupKey,
      setKey, eraseKey, removeHandle, initState, restoreFromRedis]

/-! Claim C9. -/

/-- C9: shutdown cancels every scheduled callback and closes the store
connection, and changes nothing else — the persisted records, the live timer
map, the counter, the handle allocator and the emitted events are all
untouched. -/
theorem shutdown_cancels_and_preserves :
    ∀ s : RegState,
      (shutdown s).scheduled = [] ∧
      (shutdown s).connOpen = false ∧
      (shutdown s).store = s.store ∧
      (shutdown s).timers = s.timers ∧
      (shutdown s).counter = s.counter ∧
      (shutdown s).events = s.events ∧
      (shutdown s).nextHandle = s.nextHandle := by
  intro s
  exact ⟨rfl, rfl, rfl, rfl, rfl, rfl, rfl⟩

/-! Claim C10. -/

/-- C10: the tick that brings secondsLeft to 0 (firing on a live scheduled
timer holding 1 second) emits timer:update carrying 0 and then, in the same
tick, timer:done for that id, removing the timer from the live set: the
update-then-done resolution, never done alone. -/
theorem final_tick_emits_update_zero_then_done (ok : Bool) (id : Nat)
    (s : RegState) (t : TimerRec) (h : lookupKey id s.timers = some t)
    (hs : t.intervalId ∈ s.scheduled) (h1 : t.secondsLeft = 1) :
    (tick ok id s).events = s.events ++ [Event.update id 0, Event.done id] ∧
    lookupKey id (tick ok id s).timers = none := by
  have hv : t.secondsLeft - 1 ≤ 0 := by
    rw [h1]
    norm_num
  rw [tick_live_done ok id s t h hs hv]
  constructor
  · simp only [h1]
    norm_num
  · exact lookupKey_eraseKey_self id s.timers

/-- C10 witness: the second of one remaining time of timer 1 elapses — the
emitted events are update 0 then done, and the timer leaves the live set. -/
theorem final_tick_emits_update_zero_then_done_check :
    (tick true 1 (startTimer true 1 initState).1).events =
      (startTimer true 1 initState).1.events ++ [Event.update 1 0, Event.done 1] ∧
    lookupKey 1 (tick true 1 (startTimer true 1 initState).1).timers = none :=
  final_tick_emits_update_zero_then_done true 1 (startTimer true 1 initState).1
    { secondsLeft := 1, intervalId := 0 }
    (by norm_num [startTimer, startLocalTimer, persistTimerToRedis, lookupKey,
      setKey, eraseKey, initState])
    (by norm_num [startTimer, startLocalTimer, persistTimerToRedis, lookupKey,
      setKey, eraseKey, initState])
    rfl

end KitchenTimer
